import Mathlib

/-!
# Verification of `inventory_system.py` (Lab-5-Testing)

Shallow embedding of the Python class `InventorySystem` and proofs of the
specification claims about it.

Modelling conventions:
* The Python `dict` `self.stock_data` is modelled as an association list
  `List (String × Int)`.  Python dictionaries preserve insertion order,
  update an existing key in place, and never hold duplicate keys; the
  helper operations `dictGet` / `dictSet` / `dictDel` / `dictContains`
  mirror `d.get(k, default)`, `d[k] = v`, `del d[k]` and `k in d` on such
  lists (always acting on the first occurrence of a key, which coincides
  with dict behaviour on duplicate-free lists).
* Python's dynamically typed arguments are modelled by `PyVal`: a value is
  a string, an integer, or something else (`isinstance` checks become
  constructor matches; note that for the purposes of the two `isinstance`
  guards in the source, any non-string non-integer value behaves alike,
  so `PyVal.pother` stands for all of them).
* Console `print` output is not modelled (it mutates nothing); the
  timestamp `str(datetime.now())` is an external input and is passed to
  each mutating operation as an explicit `now : String` argument.
* File I/O is modelled by passing the outcome of reading the backing file
  to `load_data` as a `ReadResult` (file missing / content that
  `json.loads` rejects / content that `json.loads` parses to a JSON value
  / any other I/O error), and by `save_data` returning the JSON value that
  `json.dumps` would serialise (the Python stdlib `json` round-trips
  JSON-representable values, so file content is modelled at the parsed
  level).  `sys.exit(1)` is modelled by the `LoadResult.exit` / the
  `InitResult.exitProcess` constructors.
-/

/-- A Python runtime value as far as the `isinstance` guards of
`add_item` / `remove_item` can distinguish them: a `str`, an `int`, or
anything else (`None`, `float`, `list`, ...). -/
inductive PyVal where
  | pstr (s : String)
  | pint (n : Int)
  | pother
deriving DecidableEq, Repr

/-- A parsed JSON value, as produced by `json.loads`. -/
inductive Json where
  | jnull
  | jbool (b : Bool)
  | jnum (n : Int)
  | jstr (s : String)
  | jarr (xs : List Json)
  | jobj (kvs : List (String × Json))

/-- The in-memory state of one `InventorySystem` instance: the stock
dictionary and the mutation log.  (The constructor argument
`inventory_file` only names the backing file; file contents are passed to
`load_data` / returned by `save_data` explicitly, so the path is not part
of the model.) -/
structure InventorySystem where
  stock_data : List (String × Int)
  logs : List String
deriving DecidableEq, Repr

/-- `d.get(k, default)` on a Python dict: value of the first occurrence of
the key, or the default. -/
def dictGet (m : List (String × Int)) (k : String) (d : Int) : Int :=
  match m with
  | [] => d
  | (k', v) :: rest => if k' = k then v else dictGet rest k d

/-- `d[k] = v` on a Python dict: update the first occurrence in place,
or append a new entry at the end (dicts preserve insertion order). -/
def dictSet (m : List (String × Int)) (k : String) (v : Int) :
    List (String × Int) :=
  match m with
  | [] => [(k, v)]
  | (k', v') :: rest =>
      if k' = k then (k, v) :: rest else (k', v') :: dictSet rest k v

/-- `del d[k]` on a Python dict: remove the first occurrence of the key. -/
def dictDel (m : List (String × Int)) (k : String) : List (String × Int) :=
  match m with
  | [] => []
  | (k', v') :: rest =>
      if k' = k then rest else (k', v') :: dictDel rest k
/-- `k in d` on a Python dict. -/
def dictContains (m : List (String × Int)) (k : String) : Bool :=
  match m with
  | [] => false
  | (k', _) :: rest => if k' = k then true else dictContains rest k

/-- A list of entries has pairwise distinct keys — every actual Python
dict satisfies this. -/
def KeysNodup (m : List (String × Int)) : Prop :=
  (m.map Prod.fst).Nodup

instance (m : List (String × Int)) : Decidable (KeysNodup m) := by
  unfold KeysNodup; infer_instance

/-- `InventorySystem.add_item(self, item, qty)`:
validate `item` (`isinstance(item, str)` and non-empty) and `qty`
(`isinstance(qty, int)` and `qty >= 0`); on failure print and return
without mutating; otherwise `self.stock_data[item] =
self.stock_data.get(item, 0) + qty` and append
`f"{str(datetime.now())}: Added {qty} of {item}"` to `self.logs`. -/
def add_item (now : String) (item qty : PyVal) (st : InventorySystem) :
    InventorySystem :=
  match item with
  | .pstr itemS =>
    if itemS = "" then st
    else
      match qty with
      | .pint q =>
        if q < 0 then st
        else
          let stock :=
            dictSet st.stock_data itemS (dictGet st.stock_data itemS 0 + q)
          let log_message := now ++ ": Added " ++ toString q ++ " of " ++ itemS
          ⟨stock, st.logs ++ [log_message]⟩
      | _ => st
  | _ => st

/-- `InventorySystem.remove_item(self, item, qty)`:
same validation as `add_item`; if `item not in self.stock_data` print an
info message and return; if `self.stock_data[item] < qty` clamp
`qty = self.stock_data[item]` (warning only); then
`self.stock_data[item] -= qty`, build
`f"{str(datetime.now())}: Removed {qty} of {item}"`, and if the updated
value is `<= 0` delete the key and append
`f". Item '{item}' removed from stock."` to the message; finally append
the message to `self.logs`. -/
def remove_item (now : String) (item qty : PyVal) (st : InventorySystem) :
    InventorySystem :=
  match item with
  | .pstr itemS =>
    if itemS = "" then st
    else
      match qty with
      | .pint q0 =>
        if q0 < 0 then st
        else if dictContains st.stock_data itemS = false then st
        else
          let avail := dictGet st.stock_data itemS 0
          let q := if avail < q0 then avail else q0
          let stock1 := dictSet st.stock_data itemS (avail - q)
          let log_message := now ++ ": Removed " ++ toString q ++ " of " ++ itemS
          if dictGet stock1 itemS 0 ≤ 0 then
            ⟨dictDel stock1 itemS,
             st.logs ++
               [log_message ++ ". Item '" ++ itemS ++ "' removed from stock."]⟩
          else ⟨stock1, st.logs ++ [log_message]⟩
      | _ => st
  | _ => st

/-- `InventorySystem.get_qty(self, item)`:
`return self.stock_data.get(item, 0)`. -/
def get_qty (st : InventorySystem) (item : String) : Int :=
  dictGet st.stock_data item 0

/-- `InventorySystem.check_low_items(self, threshold=5)`:
`[item for item, quantity in self.stock_data.items() if quantity < threshold]`. -/
def check_low_items (st : InventorySystem) (threshold : Int) : List String :=
  st.stock_data.filterMap
    (fun kv => if kv.2 < threshold then some kv.1 else none)

/-- The outcome of opening and reading the backing file, as `load_data`
can observe it: the file is missing (`FileNotFoundError`), its content is
rejected by `json.loads` (`json.JSONDecodeError`), its content parses to
a JSON value, or some other I/O error occurs (`Exception`). -/
inductive ReadResult where
  | fileNotFound
  | malformed
  | parsed (j : Json)
  | ioError

/-- What `load_data` does: either it continues with a new value for
`self.stock_data` (a JSON value — no validation is applied), or it
terminates the process via `sys.exit` with the given code. -/
inductive LoadResult where
  | loaded (stock : Json)
  | exit (code : Nat)

/-- `InventorySystem.load_data(self)`:
`self.stock_data = json.loads(f.read())` on success;
`except FileNotFoundError: self.stock_data = {}`;
`except json.JSONDecodeError: self.stock_data = {}`;
`except Exception: sys.exit(1)`. -/
def load_data : ReadResult → LoadResult
  | .parsed j => .loaded j
  | .fileNotFound => .loaded (.jobj [])
  | .malformed => .loaded (.jobj [])
  | .ioError => .exit 1

/-- The JSON value `json.dumps(self.stock_data, indent=4)` serialises when
the stock dictionary maps strings to integers. -/
def stockToJson (m : List (String × Int)) : Json :=
  .jobj (m.map (fun kv => (kv.1, Json.jnum kv.2)))

/-- The outcome of opening the backing file for writing: success, or an
`OSError`. -/
inductive SaveOutcome where
  | ok
  | ioError

/-- `InventorySystem.save_data(self)`:
`f.write(json.dumps(self.stock_data, indent=4))` inside
`try ... except OSError: print(...)`.  The state is unchanged either way;
the second component is the JSON value written to the file (`none` when
the write failed). -/
def save_data (outcome : SaveOutcome) (st : InventorySystem) :
    InventorySystem × Option Json :=
  match outcome with
  | .ok => (st, some (stockToJson st.stock_data))
  | .ioError => (st, none)

/-- One call a driver can make on a constructed store (the operations of
the claims: `AddItem`, `RemoveItem`, `SaveData`), with its external
inputs (timestamp, write outcome) made explicit. -/
inductive Op where
  | add (now : String) (item qty : PyVal)
  | remove (now : String) (item qty : PyVal)
  | save (outcome : SaveOutcome)

/-- Effect of one call on the in-memory state. -/
def step (op : Op) (st : InventorySystem) : InventorySystem :=
  match op with
  | .add now item qty => add_item now item qty st
  | .remove now item qty => remove_item now item qty st
  | .save outcome => (save_data outcome st).1

/-- Effect of a sequence of calls. -/
def run : List Op → InventorySystem → InventorySystem
  | [], st => st
  | op :: rest, st => run rest (step op st)

/-- Whether a call is a successful mutation: a valid `add_item`, or a
valid `remove_item` whose item is present (these are exactly the calls
that append a log entry). -/
def mutationSucceeds (op : Op) (st : InventorySystem) : Bool :=
  match op with
  | .add _ item qty =>
    match item, qty with
    | .pstr s, .pint q =>
        if s = "" then false else if q < 0 then false else true
    | _, _ => false
  | .remove _ item qty =>
    match item, qty with
    | .pstr s, .pint q =>
        if s = "" then false
        else if q < 0 then false
        else dictContains st.stock_data s
    | _, _ => false
  | .save _ => false

/-- Number of successful mutations performed by a call sequence. -/
def successCount : List Op → InventorySystem → Nat
  | [], _ => 0
  | op :: rest, st =>
      (if mutationSucceeds op st then 1 else 0) + successCount rest (step op st)

/-- Interpreting a loaded JSON value as a stock dictionary mapping item
names to integer quantities (the shape `save_data` writes); `none` when
the value has any other shape. -/
def entriesToStock? : List (String × Json) → Option (List (String × Int))
  | [] => some []
  | (k, .jnum n) :: rest => (entriesToStock? rest).map (fun l => (k, n) :: l)
  | _ => none

/-- See `entriesToStock?`. -/
def jsonToStock? : Json → Option (List (String × Int))
  | .jobj kvs => entriesToStock? kvs
  | _ => none

/-- `d.get(item, 0)` at the JSON level, for `get_qty` on a store whose
`stock_data` was loaded from a file without validation. -/
def jsonLookup : List (String × Json) → String → Json
  | [], _ => .jnum 0
  | (k, v) :: rest, item => if k = item then v else jsonLookup rest item

/-- `get_qty` on a store whose `stock_data` is an arbitrary loaded JSON
value: `self.stock_data.get(item, 0)` succeeds exactly when the value is
a JSON object (`.get` on a non-dict raises `AttributeError`). -/
def get_qty_dyn (stock : Json) (item : String) : Option Json :=
  match stock with
  | .jobj kvs => some (jsonLookup kvs item)
  | _ => none

/-- The store constructed by `__init__` with the given read outcome:
`self.stock_data = {}`, `self.logs = []`, then `self.load_data()`. -/
inductive InitResult where
  | ok (stock : Json) (logs : List String)
  | exitProcess (code : Nat)

/-- `InventorySystem.__init__(self, inventory_file="inventory.json")`:
fresh empty logs, then `load_data` (which either sets `stock_data` or
terminates the process). -/
def initSystem (r : ReadResult) : InitResult :=
  match load_data r with
  | .loaded j => .ok j []
  | .exit c => .exitProcess c

/-- The states of claim C1: a store constructed empty, or constructed via
`load_data` from a file whose parsed JSON content denotes a stock
dictionary, followed by any sequence of `add_item` / `remove_item` /
`save_data` calls. -/
inductive Reachable : InventorySystem → Prop
  | init_empty : Reachable ⟨[], []⟩
  | init_load (j : Json) (stock : List (String × Int)) :
      load_data (.parsed j) = .loaded j → jsonToStock? j = some stock →
      Reachable ⟨stock, []⟩
  | next (op : Op) (st : InventorySystem) : Reachable st → Reachable (step op st)

/-- The states reachable from a store constructed empty (file missing or
fresh) by `add_item` / `remove_item` / `save_data` calls. -/
inductive ReachableFromEmpty : InventorySystem → Prop
  | init : ReachableFromEmpty ⟨[], []⟩
  | next (op : Op) (st : InventorySystem) :
      ReachableFromEmpty st → ReachableFromEmpty (step op st)

/-- The `item` guard of `add_item` / `remove_item`:
`isinstance(item, str) and item` (a non-empty string). -/
def isValidItemArg : PyVal → Bool
  | .pstr s => decide (s ≠ "")
  | _ => false

/-- The `qty` guard of `add_item` / `remove_item`:
`isinstance(qty, int) and qty >= 0`. -/
def isValidQtyArg : PyVal → Bool
  | .pint q => decide (0 ≤ q)
  | _ => false

/-! ## Dictionary lemmas -/


theorem dictGet_dictSet_self (m : List (String × Int)) (k : String) (v d : Int) :
    dictGet (dictSet m k v) k d = v := by
  induction m with
  | nil => simp [dictSet, dictGet]
  | cons hd tl ih =>
      by_cases h : hd.1 = k
      · simp [dictSet, dictGet, h]
      · simpa [dictSet, dictGet, h] using ih

theorem dictGet_dictSet_ne (m : List (String × Int)) (k a : String) (v d : Int)
    (h : k ≠ a) : dictGet (dictSet m k v) a d = dictGet m a d := by
  induction m with
  | nil => simp [dictSet, dictGet, h]
  | cons hd tl ih =>
      by_cases hk : hd.1 = k
      · subst hk; simp [dictSet, dictGet, h]
      · simp only [dictSet, hk, if_false]
        by_cases ha : hd.1 = a
        · simp [dictGet, ha]
        · simpa [dictGet, ha] using ih

theorem dictContains_dictSet_self (m : List (String × Int)) (k : String) (v : Int) :
    dictContains (dictSet m k v) k = true := by
  induction m with
  | nil => simp [dictSet, dictContains]
  | cons hd tl ih =>
      by_cases h : hd.1 = k
      · simp [dictSet, dictContains, h]
      · simpa [dictSet, dictContains, h] using ih

theorem dictContains_dictSet_ne (m : List (String × Int)) (k a : String) (v : Int)
    (h : k ≠ a) : dictContains (dictSet m k v) a = dictContains m a := by
  induction m with
  | nil => simp [dictSet, dictContains, h]
  | cons hd tl ih =>
      by_cases hk : hd.1 = k
      · subst hk; simp [dictSet, dictContains, h]
      · simp only [dictSet, hk, if_false]
        by_cases ha : hd.1 = a
        · simp [dictContains, ha]
        · simpa [dictContains, ha] using ih

theorem dictContains_iff_mem_keys (m : List (String × Int)) (k : String) :
    dictContains m k = true ↔ k ∈ m.map Prod.fst := by
  induction m with
  | nil => simp [dictContains]
  | cons hd tl ih =>
      by_cases h : hd.1 = k
      · simp [dictContains, h]
      · simp [dictContains, h, ih, Ne.symm h]

theorem dictGet_of_not_contains (m : List (String × Int)) (k : String) (d : Int) :
    dictContains m k = false → dictGet m k d = d := by
  induction m with
  | nil => intro h; simp [dictGet]
  | cons hd tl ih =>
      intro h
      by_cases hk : hd.1 = k
      · simp [dictContains, hk] at h
      · simp only [dictContains, hk, if_false] at h
        simpa [dictGet, hk] using ih h

theorem mem_dictSet (m : List (String × Int)) (k : String) (v : Int)
    (kv : String × Int) : kv ∈ dictSet m k v → kv = (k, v) ∨ kv ∈ m := by
  induction m with
  | nil => intro h; simp [dictSet] at h; exact Or.inl h
  | cons hd tl ih =>
      intro h
      by_cases hk : hd.1 = k
      · simp only [dictSet, hk, if_true, List.mem_cons] at h
        rcases h with h | h
        · exact Or.inl h
        · exact Or.inr (List.mem_cons_of_mem _ h)
      · simp only [dictSet, hk, if_false, List.mem_cons] at h
        rcases h with h | h
        · exact Or.inr (h ▸ List.mem_cons_self _ _)
        · rcases ih h with h' | h'
          · exact Or.inl h'
          · exact Or.inr (List.mem_cons_of_mem _ h')

theorem mem_dictDel (m : List (String × Int)) (k : String)
    (kv : String × Int) : kv ∈ dictDel m k → kv ∈ m := by
  induction m with
  | nil => intro h; simp [dictDel] at h
  | cons hd tl ih =>
      intro h
      by_cases hk : hd.1 = k
      · simp only [dictDel, hk, if_true] at h
        exact List.mem_cons_of_mem _ h
      · simp only [dictDel, hk, if_false, List.mem_cons] at h
        rcases h with h | h
        · exact h ▸ List.mem_cons_self _ _
        · exact List.mem_cons_of_mem _ (ih h)

theorem dictGet_nonneg (m : List (String × Int)) (k : String) :
    (∀ kv ∈ m, 0 ≤ kv.2) → 0 ≤ dictGet m k 0 := by
  induction m with
  | nil => intro _; simp [dictGet]
  | cons hd tl ih =>
      intro h
      by_cases hk : hd.1 = k
      · simpa [dictGet, hk] using h hd (List.mem_cons_self _ _)
      · simpa [dictGet, hk] using
          ih (fun kv hkv => h kv (List.mem_cons_of_mem _ hkv))

theorem mem_keys_dictSet (m : List (String × Int)) (k a : String) (v : Int) :
    a ∈ (dictSet m k v).map Prod.fst → a ∈ m.map Prod.fst ∨ a = k := by
  induction m with
  | nil =>
      intro h
      simp only [dictSet, List.map_cons, List.map_nil, List.mem_singleton] at h
      exact Or.inr h
  | cons hd tl ih =>
      intro h
      by_cases hk : hd.1 = k
      · simp only [dictSet, hk, if_true, List.map_cons, List.mem_cons] at h
        rcases h with h | h
        · exact Or.inr h
        · exact Or.inl (List.mem_cons_of_mem _ h)
      · simp only [dictSet, hk, if_false, List.map_cons, List.mem_cons] at h
        rcases h with h | h
        · subst h; exact Or.inl (List.mem_cons_self _ _)
        · rcases ih h with h' | h'
          · exact Or.inl (List.mem_cons_of_mem _ h')
          · exact Or.inr h'

theorem KeysNodup_dictSet (m : List (String × Int)) (k : String) (v : Int) :
    KeysNodup m → KeysNodup (dictSet m k v) := by
  induction m with
  | nil => intro _; simp [KeysNodup, dictSet]
  | cons hd tl ih =>
      intro h
      unfold KeysNodup at h ⊢
      simp only [List.map_cons, List.nodup_cons] at h
      by_cases hk : hd.1 = k
      · simp only [dictSet, hk, if_true, List.map_cons, List.nodup_cons]
        exact ⟨hk ▸ h.1, h.2⟩
      · simp only [dictSet, hk, if_false, List.map_cons, List.nodup_cons]
        refine ⟨fun hmem => ?_, ih h.2⟩
        rcases mem_keys_dictSet tl k hd.1 v hmem with h' | h'
        · exact h.1 h'
        · exact hk h'

theorem keys_dictDel_sublist (m : List (String × Int)) (k : String) :
    ((dictDel m k).map Prod.fst).Sublist (m.map Prod.fst) := by
  induction m with
  | nil => simp [dictDel]
  | cons hd tl ih =>
      by_cases hk : hd.1 = k
      · simp only [dictDel, hk, if_true, List.map_cons]
        exact List.sublist_cons_self _ _
      · simp only [dictDel, hk, if_false, List.map_cons]
        exact List.Sublist.cons₂ _ ih

theorem KeysNodup_dictDel (m : List (String × Int)) (k : String) :
    KeysNodup m → KeysNodup (dictDel m k) :=
  fun h => List.Nodup.sublist (keys_dictDel_sublist m k) h

theorem dictContains_dictDel_self (m : List (String × Int)) (k : String) :
    KeysNodup m → dictContains (dictDel m k) k = false := by
  induction m with
  | nil => intro _; simp [dictDel, dictContains]
  | cons hd tl ih =>
      intro h
      unfold KeysNodup at h
      simp only [List.map_cons, List.nodup_cons] at h
      by_cases hk : hd.1 = k
      · simp only [dictDel, hk, if_true]
        by_contra hc
        simp only [Bool.not_eq_false] at hc
        exact (hk ▸ h.1) ((dictContains_iff_mem_keys tl k).mp hc)
      · simp only [dictDel, hk, if_false, dictContains]
        exact ih h.2

theorem dictGet_dictDel_self (m : List (String × Int)) (k : String) (d : Int) :
    KeysNodup m → dictGet (dictDel m k) k d = d :=
  fun h => dictGet_of_not_contains _ _ _ (dictContains_dictDel_self m k h)

/-! ## Operation unfolding lemmas -/

theorem add_item_eq_of_valid (st : InventorySystem) (now itemS : String) (q : Int)
    (hitem : itemS ≠ "") (hq : 0 ≤ q) :
    add_item now (.pstr itemS) (.pint q) st =
      ⟨dictSet st.stock_data itemS (dictGet st.stock_data itemS 0 + q),
       st.logs ++ [now ++ ": Added " ++ toString q ++ " of " ++ itemS]⟩ := by
  simp [add_item, hitem, not_lt.mpr hq]

theorem remove_item_eq_of_absent (st : InventorySystem) (now itemS : String)
    (q : Int) (hin : dictContains st.stock_data itemS = false) :
    remove_item now (.pstr itemS) (.pint q) st = st := by
  by_cases hitem : itemS = ""
  · simp [remove_item, hitem]
  · by_cases hq : q < 0
    · simp [remove_item, hitem, hq]
    · simp [remove_item, hitem, hq, hin]

theorem remove_item_eq_of_present (st : InventorySystem) (now itemS : String)
    (q0 : Int) (hitem : itemS ≠ "") (hq : 0 ≤ q0)
    (hin : dictContains st.stock_data itemS = true) :
    remove_item now (.pstr itemS) (.pint q0) st =
      (let avail := dictGet st.stock_data itemS 0
       let q := if avail < q0 then avail else q0
       let stock1 := dictSet st.stock_data itemS (avail - q)
       let log_message := now ++ ": Removed " ++ toString q ++ " of " ++ itemS
       if dictGet stock1 itemS 0 ≤ 0 then
         ⟨dictDel stock1 itemS,
          st.logs ++
            [log_message ++ ". Item '" ++ itemS ++ "' removed from stock."]⟩
       else ⟨stock1, st.logs ++ [log_message]⟩) := by
  simp [remove_item, hitem, not_lt.mpr hq, hin]

/-! ## Claim theorems -/

/-- C3: for every non-empty string item and non-negative integer qty,
`add_item` increments `stock[item]` by `qty` (creating the entry, starting
from the default 0, if absent), so additions accumulate; in particular
`AddItem("apple", 10)` then `AddItem("apple", 5)` makes
`GetQuantity("apple")` equal 15. -/
theorem add_item_accumulates :
    (∀ (st : InventorySystem) (now itemS : String) (q : Int),
        itemS ≠ "" → 0 ≤ q →
        get_qty (add_item now (.pstr itemS) (.pint q) st) itemS
          = get_qty st itemS + q)
    ∧ (∀ (st : InventorySystem) (now itemS : String) (q : Int),
        itemS ≠ "" → 0 ≤ q →
        dictContains (add_item now (.pstr itemS) (.pint q) st).stock_data itemS
          = true)
    ∧ get_qty (add_item "t2" (.pstr "apple") (.pint 5)
        (add_item "t1" (.pstr "apple") (.pint 10) ⟨[], []⟩)) "apple" = 15 := by
  refine ⟨fun st now itemS q hitem hq => ?_, fun st now itemS q hitem hq => ?_, ?_⟩
  · rw [add_item_eq_of_valid st now itemS q hitem hq]
    simp [get_qty, dictGet_dictSet_self]
  · rw [add_item_eq_of_valid st now itemS q hitem hq]
    simp [dictContains_dictSet_self]
  · decide

/-- Witness for C3 at a concrete input: adding 3 of "a" to the empty store
raises `get_qty "a"` from 0 by 3. -/
theorem add_item_accumulates_witness :
    get_qty (add_item "t" (.pstr "a") (.pint 3) ⟨[], []⟩) "a"
      = get_qty ⟨[], []⟩ "a" + 3 :=
  add_item_accumulates.1 ⟨[], []⟩ "t" "a" 3 (by decide) (by decide)

/-- C4: when `item` is not a non-empty string or `qty` is not a
non-negative integer, both `add_item` and `remove_item` return with the
state (stock map and log) unchanged; no exception reaches the caller
(both are modelled as total functions, mirroring the early-return guards
that precede every dictionary access in the source). -/
theorem invalid_args_no_mutation :
    ∀ (st : InventorySystem) (now : String) (item qty : PyVal),
      ¬(isValidItemArg item = true ∧ isValidQtyArg qty = true) →
      add_item now item qty st = st ∧ remove_item now item qty st = st := by
  intro st now item qty hbad
  cases item with
  | pint n => exact ⟨rfl, rfl⟩
  | pother => exact ⟨rfl, rfl⟩
  | pstr s =>
    by_cases hs : s = ""
    · subst hs
      cases qty <;> exact ⟨by simp [add_item], by simp [remove_item]⟩
    · cases qty with
      | pstr s2 => exact ⟨by simp [add_item, hs], by simp [remove_item, hs]⟩
      | pother => exact ⟨by simp [add_item, hs], by simp [remove_item, hs]⟩
      | pint q =>
        have hq : q < 0 := by
          simp only [isValidItemArg, isValidQtyArg, decide_eq_true_eq] at hbad
          push_neg at hbad
          exact hbad hs
        exact ⟨by simp [add_item, hs, hq], by simp [remove_item, hs, hq]⟩

/-- Witness for C4 at the spec's concrete inputs: `AddItem(123, 10)` and
`RemoveItem(123, 10)` leave the store untouched. -/
theorem invalid_args_no_mutation_witness :
    add_item "t" (.pint 123) (.pint 10) ⟨[("apple", 7)], []⟩
        = ⟨[("apple", 7)], []⟩
      ∧ remove_item "t" (.pint 123) (.pint 10) ⟨[("apple", 7)], []⟩
        = ⟨[("apple", 7)], []⟩ :=
  invalid_args_no_mutation ⟨[("apple", 7)], []⟩ "t" (.pint 123) (.pint 10)
    (by decide)

/-- C8: removing a valid item name that is absent from the stock map is a
no-op: the stock map and the log are unchanged and nothing is raised (the
informational message is console output only). -/
theorem remove_item_absent_noop :
    ∀ (st : InventorySystem) (now itemS : String) (q : Int),
      itemS ≠ "" → 0 ≤ q → dictContains st.stock_data itemS = false →
      remove_item now (.pstr itemS) (.pint q) st = st :=
  fun st now itemS q _ _ hin => remove_item_eq_of_absent st now itemS q hin

/-- Witness for C8 at a concrete input: removing "orange" (absent) from a
store holding only "apple" changes nothing. -/
theorem remove_item_absent_noop_witness :
    remove_item "t" (.pstr "orange") (.pint 1) ⟨[("apple", 7)], []⟩
      = ⟨[("apple", 7)], []⟩ :=
  remove_item_absent_noop ⟨[("apple", 7)], []⟩ "t" "orange" 1 (by decide)
    (by decide) (by decide)

theorem remove_item_present_delete (st : InventorySystem) (now itemS : String)
    (q0 : Int) (hitem : itemS ≠ "") (hq : 0 ≤ q0) (hnd : KeysNodup st.stock_data)
    (hin : dictContains st.stock_data itemS = true)
    (hle : dictGet st.stock_data itemS 0 - q0 ≤ 0) :
    dictContains (remove_item now (.pstr itemS) (.pint q0) st).stock_data itemS
      = false := by
  rw [remove_item_eq_of_present st now itemS q0 hitem hq hin]
  by_cases hlt : dictGet st.stock_data itemS 0 < q0
  · simp only [if_pos hlt]
    rw [dictGet_dictSet_self]
    rw [if_pos (by omega : dictGet st.stock_data itemS 0
      - dictGet st.stock_data itemS 0 ≤ 0)]
    exact dictContains_dictDel_self _ _ (KeysNodup_dictSet _ _ _ hnd)
  · simp only [if_neg hlt]
    rw [dictGet_dictSet_self]
    rw [if_pos hle]
    exact dictContains_dictDel_self _ _ (KeysNodup_dictSet _ _ _ hnd)

theorem remove_item_present_keep (st : InventorySystem) (now itemS : String)
    (q0 : Int) (hitem : itemS ≠ "") (hq : 0 ≤ q0)
    (hin : dictContains st.stock_data itemS = true)
    (hgt : 0 < dictGet st.stock_data itemS 0 - q0) :
    (remove_item now (.pstr itemS) (.pint q0) st).stock_data
      = dictSet st.stock_data itemS (dictGet st.stock_data itemS 0 - q0) := by
  rw [remove_item_eq_of_present st now itemS q0 hitem hq hin]
  have hlt : ¬ dictGet st.stock_data itemS 0 < q0 := by omega
  simp only [if_neg hlt]
  rw [dictGet_dictSet_self]
  rw [if_neg (by omega : ¬ dictGet st.stock_data itemS 0 - q0 ≤ 0)]

/-- C2: for an item present with current quantity `s` and a valid removal
quantity `qty`: if `qty ≤ s` the quantity becomes `s - qty`
(`GetQuantity` reports it, the key being deleted exactly when it reaches
0); if `qty > s` the removal is clamped to `s` and the key is deleted, so
a subsequent `GetQuantity` returns 0; in every case a resulting quantity
`≤ 0` means the key is gone.  Concretely: stock 10, removing 3 leaves 7;
removing 20 deletes the key and `GetQuantity` returns 0. -/
theorem remove_item_clamps_and_deletes :
    (∀ (st : InventorySystem) (now itemS : String) (q s : Int),
        itemS ≠ "" → 0 ≤ q → KeysNodup st.stock_data →
        dictContains st.stock_data itemS = true →
        dictGet st.stock_data itemS 0 = s →
        ((q ≤ s →
            get_qty (remove_item now (.pstr itemS) (.pint q) st) itemS = s - q)
         ∧ (s < q →
            dictContains (remove_item now (.pstr itemS) (.pint q) st).stock_data
                itemS = false
              ∧ get_qty (remove_item now (.pstr itemS) (.pint q) st) itemS = 0)
         ∧ (s - q ≤ 0 →
            dictContains (remove_item now (.pstr itemS) (.pint q) st).stock_data
                itemS = false
              ∧ get_qty (remove_item now (.pstr itemS) (.pint q) st) itemS = 0)))
    ∧ get_qty (remove_item "t" (.pstr "apple") (.pint 3) ⟨[("apple", 10)], []⟩)
        "apple" = 7
    ∧ dictContains (remove_item "t" (.pstr "apple") (.pint 20)
        ⟨[("apple", 10)], []⟩).stock_data "apple" = false
    ∧ get_qty (remove_item "t" (.pstr "apple") (.pint 20)
        ⟨[("apple", 10)], []⟩) "apple" = 0 := by
  refine ⟨?_, by decide, by decide, by decide⟩
  intro st now itemS q s hitem hq hnd hin hs
  subst hs
  by_cases hgt : 0 < dictGet st.stock_data itemS 0 - q
  · have hkeep := remove_item_present_keep st now itemS q hitem hq hin hgt
    refine ⟨fun _ => ?_, fun hlt => absurd hlt (by omega), fun hle => absurd hle (by omega)⟩
    simp [get_qty, hkeep, dictGet_dictSet_self]
  · have hle : dictGet st.stock_data itemS 0 - q ≤ 0 := by omega
    have hdel := remove_item_present_delete st now itemS q hitem hq hnd hin hle
    have hget : get_qty (remove_item now (.pstr itemS) (.pint q) st) itemS = 0 :=
      dictGet_of_not_contains _ _ _ hdel
    refine ⟨fun hqs => ?_, fun _ => ⟨hdel, hget⟩, fun _ => ⟨hdel, hget⟩⟩
    have : dictGet st.stock_data itemS 0 - q = 0 := by omega
    rw [hget, this]

/-- Witness for C2 at a concrete input: removing 3 of "apple" from stock
10 leaves quantity 10 - 3. -/
theorem remove_item_clamps_and_deletes_witness :
    get_qty (remove_item "t" (.pstr "apple") (.pint 3) ⟨[("apple", 10)], []⟩)
      "apple" = 10 - 3 :=
  (remove_item_clamps_and_deletes.1 ⟨[("apple", 10)], []⟩ "t" "apple" 3 10
    (by decide) (by decide) (by decide) (by decide) (by decide)).1 (by decide)

theorem filterMap_low_eq_filter_map (l : List (String × Int)) (t : Int) :
    l.filterMap (fun kv => if kv.2 < t then some kv.1 else none)
      = (l.filter (fun kv => decide (kv.2 < t))).map Prod.fst := by
  induction l with
  | nil => rfl
  | cons hd tl ih =>
      by_cases h : hd.2 < t
      · simp [List.filterMap_cons, List.filter_cons, h, ih]
      · simp [List.filterMap_cons, List.filter_cons, h, ih]

/-- C7: `check_low_items threshold` returns exactly the item names whose
quantity is strictly below the threshold (quantity equal to the threshold
is excluded), in the stock map's iteration order; on
`{"apple": 7, "banana": 2}` with threshold 5 it returns `["banana"]`. -/
theorem check_low_items_strictly_below :
    (∀ (st : InventorySystem) (t : Int),
        check_low_items st t
          = (st.stock_data.filter (fun kv => decide (kv.2 < t))).map Prod.fst)
    ∧ (∀ (st : InventorySystem) (t : Int) (item : String),
        item ∈ check_low_items st t
          ↔ ∃ q : Int, (item, q) ∈ st.stock_data ∧ q < t)
    ∧ check_low_items ⟨[("apple", 7), ("banana", 2)], []⟩ 5 = ["banana"] := by
  refine ⟨fun st t => filterMap_low_eq_filter_map st.stock_data t, ?_, by decide⟩
  intro st t item
  simp only [check_low_items, List.mem_filterMap]
  constructor
  · rintro ⟨⟨a, b⟩, hmem, hf⟩
    by_cases h : b < t
    · simp only [if_pos h] at hf
      obtain rfl : a = item := Option.some.inj hf
      exact ⟨b, hmem, h⟩
    · simp [if_neg h] at hf
  · rintro ⟨q, hmem, hq⟩
    exact ⟨(item, q), hmem, by simp [if_pos hq]⟩

/-- Witness for C7 at a concrete input: "banana" is reported low for
threshold 5 on `{"apple": 7, "banana": 2}`. -/
theorem check_low_items_strictly_below_witness :
    "banana" ∈ check_low_items ⟨[("apple", 7), ("banana", 2)], []⟩ 5 :=
  (check_low_items_strictly_below.2.1 ⟨[("apple", 7), ("banana", 2)], []⟩ 5
    "banana").mpr ⟨2, by decide, by decide⟩

/-- C5: `load_data` distinguishes exactly three failure modes — missing
file and undecodable content each continue with the empty map, while any
other I/O failure (and only that) terminates the process with exit code
1, both at the `load_data` level and through construction (`__init__`);
successfully parsed content just becomes the stock map.  The remaining
operations (`add_item`, `remove_item`, `save_data`, `get_qty`,
`check_low_items`) are modelled as total state functions because the
source contains no other call to `sys.exit` and no uncaught raise. -/
theorem load_data_failure_modes :
    (∀ (r : ReadResult) (c : Nat), load_data r = .exit c ↔ (r = .ioError ∧ c = 1))
    ∧ load_data .fileNotFound = .loaded (.jobj [])
    ∧ load_data .malformed = .loaded (.jobj [])
    ∧ (∀ j : Json, load_data (.parsed j) = .loaded j)
    ∧ (∀ (r : ReadResult) (c : Nat),
        initSystem r = .exitProcess c ↔ (r = .ioError ∧ c = 1)) := by
  refine ⟨?_, rfl, rfl, fun j => rfl, ?_⟩
  · intro r c; cases r <;> simp [load_data, eq_comm]
  · intro r c; cases r <;> simp [initSystem, load_data, eq_comm]

/-- Witness for C5 at a concrete input: an unexpected I/O error makes
`load_data` exit with code 1. -/
theorem load_data_failure_modes_witness :
    load_data ReadResult.ioError = LoadResult.exit 1 :=
  (load_data_failure_modes.1 ReadResult.ioError 1).mpr ⟨rfl, rfl⟩

/-- C10: `load_data` applies no validation to parsed file content — any
parsed JSON value (zero, negative or non-integer quantities, or not an
object at all) becomes the stock map verbatim; in particular loading
`{"a": -5}` makes `get_qty("a")` return -5. -/
theorem load_data_no_validation :
    (∀ j : Json, load_data (.parsed j) = .loaded j)
    ∧ load_data (.parsed (.jobj [("a", .jnum (-5))]))
        = .loaded (.jobj [("a", .jnum (-5))])
    ∧ get_qty_dyn (.jobj [("a", .jnum (-5))]) "a" = some (.jnum (-5)) := by
  refine ⟨fun j => rfl, rfl, ?_⟩
  simp [get_qty_dyn, jsonLookup]

theorem entriesToStock?_stockToJson (m : List (String × Int)) :
    entriesToStock? (m.map (fun kv => (kv.1, Json.jnum kv.2))) = some m := by
  induction m with
  | nil => rfl
  | cons hd tl ih => simp [entriesToStock?, ih]

theorem jsonLookup_stockToJson (m : List (String × Int)) (item : String) :
    jsonLookup (m.map (fun kv => (kv.1, Json.jnum kv.2))) item
      = .jnum (dictGet m item 0) := by
  induction m with
  | nil => rfl
  | cons hd tl ih =>
      by_cases h : hd.1 = item
      · simp [jsonLookup, dictGet, h]
      · simp [jsonLookup, dictGet, h, ih]

/-- C6: saving a stock map of item names and quantities and then
constructing a fresh store against the resulting file content reproduces
an identical stock map — the construction succeeds with exactly the saved
value, the value denotes the original entry list, and `get_qty` on the
fresh store agrees with `get_qty` on the saved one everywhere. -/
theorem save_load_round_trip :
    ∀ (st : InventorySystem) (j : Json),
      (save_data .ok st).2 = some j →
      initSystem (.parsed j) = .ok j []
        ∧ jsonToStock? j = some st.stock_data
        ∧ ∀ item : String, get_qty_dyn j item = some (.jnum (get_qty st item)) := by
  intro st j h
  simp only [save_data] at h
  obtain rfl : stockToJson st.stock_data = j := Option.some.inj h
  refine ⟨rfl, ?_, ?_⟩
  · simp [jsonToStock?, stockToJson, entriesToStock?_stockToJson]
  · intro item
    simp [get_qty_dyn, stockToJson, jsonLookup_stockToJson, get_qty]

/-- Witness for C6 at a concrete input: saving `{"apple": 7}` and loading
it back yields the same entry list. -/
theorem save_load_round_trip_witness :
    jsonToStock? (Json.jobj [("apple", Json.jnum 7)]) = some [("apple", (7 : Int))] :=
  (save_load_round_trip ⟨[("apple", 7)], []⟩ (Json.jobj [("apple", Json.jnum 7)])
    rfl).2.1

theorem remove_item_stock_cases (st : InventorySystem) (now s : String)
    (q0 : Int) (hs : s ≠ "") (hq : 0 ≤ q0)
    (hin : dictContains st.stock_data s = true) :
    (remove_item now (.pstr s) (.pint q0) st).stock_data
        = dictDel (dictSet st.stock_data s
            (dictGet st.stock_data s 0 -
              (if dictGet st.stock_data s 0 < q0 then dictGet st.stock_data s 0
               else q0))) s
      ∨ (remove_item now (.pstr s) (.pint q0) st).stock_data
        = dictSet st.stock_data s
            (dictGet st.stock_data s 0 -
              (if dictGet st.stock_data s 0 < q0 then dictGet st.stock_data s 0
               else q0)) := by
  simp only [remove_item_eq_of_present st now s q0 hs hq hin]
  by_cases hc : dictGet (dictSet st.stock_data s
      (dictGet st.stock_data s 0 -
        (if dictGet st.stock_data s 0 < q0 then dictGet st.stock_data s 0
         else q0))) s 0 ≤ 0
  · left; rw [if_pos hc]
  · right; rw [if_neg hc]

theorem step_preserves_inv (op : Op) (st : InventorySystem)
    (h : KeysNodup st.stock_data ∧ ∀ kv ∈ st.stock_data, kv.1 ≠ "" ∧ 0 ≤ kv.2) :
    KeysNodup (step op st).stock_data
      ∧ ∀ kv ∈ (step op st).stock_data, kv.1 ≠ "" ∧ 0 ≤ kv.2 := by
  cases op with
  | save outcome => cases outcome <;> exact h
  | add now item qty =>
      cases item with
      | pint n => exact h
      | pother => exact h
      | pstr s =>
        by_cases hs : s = ""
        · subst hs; simpa [step, add_item] using h
        · cases qty with
          | pstr s2 => simpa [step, add_item, hs] using h
          | pother => simpa [step, add_item, hs] using h
          | pint q =>
            by_cases hq : q < 0
            · simpa [step, add_item, hs, hq] using h
            · have hq' : 0 ≤ q := not_lt.mp hq
              have hstep : step (Op.add now (.pstr s) (.pint q)) st
                  = add_item now (.pstr s) (.pint q) st := rfl
              rw [hstep, add_item_eq_of_valid st now s q hs hq']
              refine ⟨KeysNodup_dictSet _ _ _ h.1, fun kv hkv => ?_⟩
              rcases mem_dictSet _ _ _ _ hkv with rfl | hmem
              · refine ⟨hs, ?_⟩
                have hget := dictGet_nonneg st.stock_data s
                  (fun kv hk => (h.2 kv hk).2)
                simpa using add_nonneg hget hq'
              · exact h.2 kv hmem
  | remove now item qty =>
      cases item with
      | pint n => exact h
      | pother => exact h
      | pstr s =>
        by_cases hs : s = ""
        · subst hs; simpa [step, remove_item] using h
        · cases qty with
          | pstr s2 => simpa [step, remove_item, hs] using h
          | pother => simpa [step, remove_item, hs] using h
          | pint q =>
            by_cases hq : q < 0
            · simpa [step, remove_item, hs, hq] using h
            · have hq' : 0 ≤ q := not_lt.mp hq
              by_cases hin : dictContains st.stock_data s = false
              · have hstep : step (Op.remove now (.pstr s) (.pint q)) st
                    = remove_item now (.pstr s) (.pint q) st := rfl
                rw [hstep, remove_item_eq_of_absent st now s q hin]
                exact h
              · have hin' : dictContains st.stock_data s = true := by
                  cases hcc : dictContains st.stock_data s
                  · exact absurd hcc hin
                  · rfl
                have hget := dictGet_nonneg st.stock_data s
                  (fun kv hk => (h.2 kv hk).2)
                have hv : 0 ≤ dictGet st.stock_data s 0 -
                    (if dictGet st.stock_data s 0 < q then dictGet st.stock_data s 0
                     else q) := by
                  split <;> omega
                have hstep : step (Op.remove now (.pstr s) (.pint q)) st
                    = remove_item now (.pstr s) (.pint q) st := rfl
                rw [hstep]
                rcases remove_item_stock_cases st now s q hs hq' hin' with hst | hst
                · rw [hst]
                  refine ⟨KeysNodup_dictDel _ _ (KeysNodup_dictSet _ _ _ h.1),
                    fun kv hkv => ?_⟩
                  rcases mem_dictSet _ _ _ _ (mem_dictDel _ _ _ hkv) with rfl | hmem
                  · exact ⟨hs, hv⟩
                  · exact h.2 kv hmem
                · rw [hst]
                  refine ⟨KeysNodup_dictSet _ _ _ h.1, fun kv hkv => ?_⟩
                  rcases mem_dictSet _ _ _ _ hkv with rfl | hmem
                  · exact ⟨hs, hv⟩
                  · exact h.2 kv hmem

theorem reachableFromEmpty_inv (st : InventorySystem)
    (h : ReachableFromEmpty st) :
    KeysNodup st.stock_data ∧ ∀ kv ∈ st.stock_data, kv.1 ≠ "" ∧ 0 ≤ kv.2 := by
  induction h with
  | init => exact ⟨by simp [KeysNodup], by simp⟩
  | next op st' hr ih => exact step_preserves_inv op st' ih

/-- C1 (amended): in every state reachable from a store constructed empty
by `add_item` / `remove_item` / `save_data` calls, every stock entry maps
a non-empty item name to a quantity that is at least 0; and a
`remove_item` with valid arguments leaves its target item either deleted
or with quantity strictly greater than 0 (never 0).  The original claim's
stronger guarantees fail: `add_item` with quantity 0 can create a
persisting entry with quantity 0, and states constructed via `load_data`
satisfy no invariant at all because loading validates nothing (see the
counterexample). -/
theorem stock_map_invariant_amended :
    (∀ st : InventorySystem, ReachableFromEmpty st →
        ∀ kv ∈ st.stock_data, kv.1 ≠ "" ∧ 0 ≤ kv.2)
    ∧ (∀ (st : InventorySystem) (now itemS : String) (q : Int),
        ReachableFromEmpty st → itemS ≠ "" → 0 ≤ q →
        dictContains (remove_item now (.pstr itemS) (.pint q) st).stock_data
            itemS = true →
        0 < get_qty (remove_item now (.pstr itemS) (.pint q) st) itemS) := by
  constructor
  · exact fun st h => (reachableFromEmpty_inv st h).2
  · intro st now itemS q hr hitem hq hc
    by_cases hin : dictContains st.stock_data itemS = false
    · rw [remove_item_eq_of_absent st now itemS q hin] at hc
      rw [hin] at hc
      exact Bool.noConfusion hc
    · have hin' : dictContains st.stock_data itemS = true := by
        cases hcc : dictContains st.stock_data itemS
        · exact absurd hcc hin
        · rfl
      have hnd := (reachableFromEmpty_inv st hr).1
      by_cases hgt : 0 < dictGet st.stock_data itemS 0 - q
      · have hkeep := remove_item_present_keep st now itemS q hitem hq hin' hgt
        simpa [get_qty, hkeep, dictGet_dictSet_self] using hgt
      · have hle : dictGet st.stock_data itemS 0 - q ≤ 0 := by omega
        have hdel := remove_item_present_delete st now itemS q hitem hq hnd
          hin' hle
        rw [hdel] at hc
        exact Bool.noConfusion hc

/-- Witness for the amended C1 at a concrete input: the state after
adding 2 of "a" to the empty store is reachable, and its entry ("a", 2)
has a non-empty name and a non-negative quantity. -/
theorem stock_map_invariant_amended_witness :
    ("a" : String) ≠ "" ∧ (0 : Int) ≤ (2 : Int) :=
  stock_map_invariant_amended.1 (step (Op.add "t" (.pstr "a") (.pint 2)) ⟨[], []⟩)
    (ReachableFromEmpty.next _ _ ReachableFromEmpty.init) ("a", 2) (by decide)

/-- Counterexample to C1 as stated: (i) the state reached from the empty
store by the completed operation `add_item "a" 0` is reachable yet keeps
the entry ("a", 0) — an entry with quantity 0 persists after an operation
completes; (ii) the store constructed via `load_data` from the parsed
file content `{"a": -5}` is reachable yet its stock quantity for "a" is
negative. -/
theorem stock_map_invariant_counterexample :
    (Reachable (step (Op.add "t" (.pstr "a") (.pint 0)) ⟨[], []⟩)
      ∧ ("a", (0 : Int))
          ∈ (step (Op.add "t" (.pstr "a") (.pint 0)) ⟨[], []⟩).stock_data)
    ∧ (Reachable ⟨[("a", -5)], []⟩ ∧ get_qty ⟨[("a", -5)], []⟩ "a" < 0) := by
  refine ⟨⟨Reachable.next _ _ Reachable.init_empty, ?_⟩, ⟨?_, ?_⟩⟩
  · decide
  · exact Reachable.init_load (Json.jobj [("a", Json.jnum (-5))]) [("a", -5)]
      rfl rfl
  · decide

theorem add_item_logs_of_valid (st : InventorySystem) (now s : String) (q : Int)
    (hs : s ≠ "") (hq : 0 ≤ q) :
    (add_item now (.pstr s) (.pint q) st).logs
      = st.logs ++ [now ++ ": Added " ++ toString q ++ " of " ++ s] := by
  rw [add_item_eq_of_valid st now s q hs hq]

theorem remove_item_logs_delete (st : InventorySystem) (now s : String)
    (q0 : Int) (hs : s ≠ "") (hq : 0 ≤ q0)
    (hin : dictContains st.stock_data s = true)
    (hcond : dictGet st.stock_data s 0 -
      (if dictGet st.stock_data s 0 < q0 then dictGet st.stock_data s 0 else q0)
        ≤ 0) :
    (remove_item now (.pstr s) (.pint q0) st).logs
      = st.logs ++ [now ++ ": Removed "
          ++ toString (if dictGet st.stock_data s 0 < q0
              then dictGet st.stock_data s 0 else q0)
          ++ " of " ++ s ++ ". Item '" ++ s ++ "' removed from stock."] := by
  simp only [remove_item_eq_of_present st now s q0 hs hq hin]
  rw [dictGet_dictSet_self, if_pos hcond]

theorem remove_item_logs_keep (st : InventorySystem) (now s : String)
    (q0 : Int) (hs : s ≠ "") (hq : 0 ≤ q0)
    (hin : dictContains st.stock_data s = true)
    (hcond : 0 < dictGet st.stock_data s 0 -
      (if dictGet st.stock_data s 0 < q0 then dictGet st.stock_data s 0
       else q0)) :
    (remove_item now (.pstr s) (.pint q0) st).logs
      = st.logs ++ [now ++ ": Removed "
          ++ toString (if dictGet st.stock_data s 0 < q0
              then dictGet st.stock_data s 0 else q0)
          ++ " of " ++ s] := by
  simp only [remove_item_eq_of_present st now s q0 hs hq hin]
  rw [dictGet_dictSet_self, if_neg (by omega :
    ¬ dictGet st.stock_data s 0 -
      (if dictGet st.stock_data s 0 < q0 then dictGet st.stock_data s 0 else q0)
        ≤ 0)]

theorem step_logs_append (op : Op) (st : InventorySystem) :
    ∃ t, (step op st).logs = st.logs ++ t := by
  cases op with
  | save outcome => cases outcome <;> exact ⟨[], by simp [step, save_data]⟩
  | add now item qty =>
      cases item with
      | pint n => exact ⟨[], by simp [step, add_item]⟩
      | pother => exact ⟨[], by simp [step, add_item]⟩
      | pstr s =>
        by_cases hs : s = ""
        · exact ⟨[], by subst hs; simp [step, add_item]⟩
        · cases qty with
          | pstr s2 => exact ⟨[], by simp [step, add_item, hs]⟩
          | pother => exact ⟨[], by simp [step, add_item, hs]⟩
          | pint q =>
            by_cases hq : q < 0
            · exact ⟨[], by simp [step, add_item, hs, hq]⟩
            · exact ⟨[now ++ ": Added " ++ toString q ++ " of " ++ s],
                add_item_logs_of_valid st now s q hs (not_lt.mp hq)⟩
  | remove now item qty =>
      cases item with
      | pint n => exact ⟨[], by simp [step, remove_item]⟩
      | pother => exact ⟨[], by simp [step, remove_item]⟩
      | pstr s =>
        by_cases hs : s = ""
        · exact ⟨[], by subst hs; simp [step, remove_item]⟩
        · cases qty with
          | pstr s2 => exact ⟨[], by simp [step, remove_item, hs]⟩
          | pother => exact ⟨[], by simp [step, remove_item, hs]⟩
          | pint q =>
            by_cases hq : q < 0
            · exact ⟨[], by simp [step, remove_item, hs, hq]⟩
            · by_cases hin : dictContains st.stock_data s = false
              · exact ⟨[], by
                  have := remove_item_eq_of_absent st now s q hin
                  simp [step, this]⟩
              · have hin' : dictContains st.stock_data s = true := by
                  cases hcc : dictContains st.stock_data s
                  · exact absurd hcc hin
                  · rfl
                by_cases hcond : dictGet st.stock_data s 0 -
                    (if dictGet st.stock_data s 0 < q
                     then dictGet st.stock_data s 0 else q) ≤ 0
                · exact ⟨[now ++ ": Removed "
                      ++ toString (if dictGet st.stock_data s 0 < q
                          then dictGet st.stock_data s 0 else q)
                      ++ " of " ++ s ++ ". Item '" ++ s
                      ++ "' removed from stock."],
                    remove_item_logs_delete st now s q hs (not_lt.mp hq) hin'
                      hcond⟩
                · exact ⟨[now ++ ": Removed "
                      ++ toString (if dictGet st.stock_data s 0 < q
                          then dictGet st.stock_data s 0 else q)
                      ++ " of " ++ s],
                    remove_item_logs_keep st now s q hs (not_lt.mp hq) hin'
                      (by omega)⟩

theorem step_logs_length (op : Op) (st : InventorySystem) :
    (step op st).logs.length
      = st.logs.length + (if mutationSucceeds op st then 1 else 0) := by
  cases op with
  | save outcome => cases outcome <;> simp [step, save_data, mutationSucceeds]
  | add now item qty =>
      cases item with
      | pint n => simp [step, add_item, mutationSucceeds]
      | pother => simp [step, add_item, mutationSucceeds]
      | pstr s =>
        by_cases hs : s = ""
        · subst hs; cases qty <;> simp [step, add_item, mutationSucceeds]
        · cases qty with
          | pstr s2 => simp [step, add_item, mutationSucceeds, hs]
          | pother => simp [step, add_item, mutationSucceeds, hs]
          | pint q =>
            by_cases hq : q < 0
            · simp [step, add_item, mutationSucceeds, hs, hq]
            · have hlog := add_item_logs_of_valid st now s q hs (not_lt.mp hq)
              have hstep : step (Op.add now (.pstr s) (.pint q)) st
                  = add_item now (.pstr s) (.pint q) st := rfl
              rw [hstep, hlog]
              simp [mutationSucceeds, hs, hq]
  | remove now item qty =>
      cases item with
      | pint n => simp [step, remove_item, mutationSucceeds]
      | pother => simp [step, remove_item, mutationSucceeds]
      | pstr s =>
        by_cases hs : s = ""
        · subst hs; cases qty <;> simp [step, remove_item, mutationSucceeds]
        · cases qty with
          | pstr s2 => simp [step, remove_item, mutationSucceeds, hs]
          | pother => simp [step, remove_item, mutationSucceeds, hs]
          | pint q =>
            by_cases hq : q < 0
            · simp [step, remove_item, mutationSucceeds, hs, hq]
            · by_cases hin : dictContains st.stock_data s = false
              · have := remove_item_eq_of_absent st now s q hin
                simp [step, this, mutationSucceeds, hs, hq, hin]
              · have hin' : dictContains st.stock_data s = true := by
                  cases hcc : dictContains st.stock_data s
                  · exact absurd hcc hin
                  · rfl
                have hstep : step (Op.remove now (.pstr s) (.pint q)) st
                    = remove_item now (.pstr s) (.pint q) st := rfl
                rw [hstep]
                by_cases hcond : dictGet st.stock_data s 0 -
                    (if dictGet st.stock_data s 0 < q
                     then dictGet st.stock_data s 0 else q) ≤ 0
                · rw [remove_item_logs_delete st now s q hs (not_lt.mp hq)
                    hin' hcond]
                  simp [mutationSucceeds, hs, hq, hin']
                · rw [remove_item_logs_keep st now s q hs (not_lt.mp hq)
                    hin' (by omega)]
                  simp [mutationSucceeds, hs, hq, hin']

theorem run_logs_length (ops : List Op) (st : InventorySystem) :
    (run ops st).logs.length = st.logs.length + successCount ops st := by
  induction ops generalizing st with
  | nil => simp [run, successCount]
  | cons op rest ih =>
      have h1 := step_logs_length op st
      have h2 := ih (step op st)
      simp only [run, successCount]
      omega

/-- C9: the log is append-only with insertion order preserved — every
call extends the log (never removing or reordering existing entries);
each call appends exactly one entry when and only when it is a successful
mutation; a successful `add_item` appends the one entry
`"<now>: Added <qty> of <item>"`; a successful `remove_item` appends the
one entry `"<now>: Removed <clamped qty> of <item>"`, with the
removed-from-stock suffix exactly when the item is deleted; and after any
sequence of calls the number of log entries grew by exactly the number of
successful mutations. -/
theorem logs_append_only :
    (∀ (op : Op) (st : InventorySystem), ∃ t, (step op st).logs = st.logs ++ t)
    ∧ (∀ (op : Op) (st : InventorySystem),
        (step op st).logs.length
          = st.logs.length + (if mutationSucceeds op st then 1 else 0))
    ∧ (∀ (st : InventorySystem) (now s : String) (q : Int), s ≠ "" → 0 ≤ q →
        (add_item now (.pstr s) (.pint q) st).logs
          = st.logs ++ [now ++ ": Added " ++ toString q ++ " of " ++ s])
    ∧ (∀ (st : InventorySystem) (now s : String) (q0 : Int), s ≠ "" → 0 ≤ q0 →
        dictContains st.stock_data s = true →
        ((dictGet st.stock_data s 0 -
            (if dictGet st.stock_data s 0 < q0 then dictGet st.stock_data s 0
             else q0) ≤ 0 →
          (remove_item now (.pstr s) (.pint q0) st).logs
            = st.logs ++ [now ++ ": Removed "
                ++ toString (if dictGet st.stock_data s 0 < q0
                    then dictGet st.stock_data s 0 else q0)
                ++ " of " ++ s ++ ". Item '" ++ s ++ "' removed from stock."])
         ∧ (0 < dictGet st.stock_data s 0 -
            (if dictGet st.stock_data s 0 < q0 then dictGet st.stock_data s 0
             else q0) →
          (remove_item now (.pstr s) (.pint q0) st).logs
            = st.logs ++ [now ++ ": Removed "
                ++ toString (if dictGet st.stock_data s 0 < q0
                    then dictGet st.stock_data s 0 else q0)
                ++ " of " ++ s])))
    ∧ (∀ (ops : List Op) (st : InventorySystem),
        (run ops st).logs.length = st.logs.length + successCount ops st) := by
  refine ⟨step_logs_append, step_logs_length,
    fun st now s q hs hq => add_item_logs_of_valid st now s q hs hq,
    fun st now s q0 hs hq hin =>
      ⟨fun hcond => remove_item_logs_delete st now s q0 hs hq hin hcond,
       fun hcond => remove_item_logs_keep st now s q0 hs hq hin hcond⟩,
    run_logs_length⟩

/-- Witness for C9 at a concrete input: adding 2 of "a" to the empty
store appends exactly the expected log entry. -/
theorem logs_append_only_witness :
    (add_item "t" (.pstr "a") (.pint 2) ⟨[], []⟩).logs
      = [] ++ ["t" ++ ": Added " ++ toString (2 : Int) ++ " of " ++ "a"] :=
  logs_append_only.2.2.1 ⟨[], []⟩ "t" "a" 2 (by decide) (by decide)
